import Mathlib

/-!
Verification of the spectrum subsystem of `src/pbrt/util/spectrum.cpp`.

Machine `Float` arithmetic is embedded as exact rational arithmetic (`ℚ`);
`std::exp` is abstracted as a function parameter, and `size_t` index
arithmetic is embedded with its wrap-around at `2 ^ 64` made explicit where
it matters.  File contents read by `ReadFloatFile` are embedded as an
`Option (List ℚ)` argument (`none` when the file cannot be read).
-/

set_option autoImplicit false

namespace pbrt

/-- Width of `size_t` on the reference platform; `size_t` subtraction wraps
modulo `sizeTMod`. -/
def sizeTMod : ℕ := 2 ^ 64

/-- The value of the `size_t` expression `n - 1` (wraps to `2^64 - 1` when
`n = 0`, as in the loop bound of the `PiecewiseLinearSpectrum` constructor). -/
def sizeTSub1 (n : ℕ) : ℕ := (n + sizeTMod - 1) % sizeTMod

/-! ## PiecewiseLinearSpectrum construction (spectrum.cpp lines 156-163)

The constructor copies the two spans and then runs
`CHECK_EQ(lambda.size(), v.size());` followed by
`for (size_t i = 0; i < lambda.size() - 1; ++i) CHECK_LT(lambda[i], lambda[i+1]);`.
The embedding records the observable outcome of that code: `ok` when every
check passes, `fatal` when a `CHECK` fires, `oob` when the loop body indexes
past the end of `lambda` (undefined behaviour in the source). -/

/-- Outcome of running the `PiecewiseLinearSpectrum` constructor checks. -/
inductive CtorResult where
  | ok : CtorResult
  | fatal : CtorResult
  | oob : CtorResult
deriving DecidableEq, Repr

/-- The constructor check loop, starting at index `i` with `steps` iterations
remaining: each iteration reads `lambda[i]` and `lambda[i+1]` and requires
`lambda[i] < lambda[i+1]`. -/
def plsCheckFrom (lambda : List ℚ) : ℕ → ℕ → CtorResult
  | _, 0 => .ok
  | i, steps + 1 =>
    if h : i + 1 < lambda.length then
      if lambda.get ⟨i, by omega⟩ < lambda.get ⟨i + 1, h⟩ then
        plsCheckFrom lambda (i + 1) steps
      else .fatal
    else .oob

/-- `PiecewiseLinearSpectrum::PiecewiseLinearSpectrum` checks
(spectrum.cpp lines 156-163): size equality, then the strict-increase loop
whose `size_t` bound `lambda.size() - 1` wraps for an empty `lambda`. -/
def PiecewiseLinearSpectrum.ctor (lambda v : List ℚ) : CtorResult :=
  if lambda.length ≠ v.length then .fatal
  else plsCheckFrom lambda 0 (sizeTSub1 lambda.length)

/-! ## PiecewiseLinearSpectrum::Read (spectrum.cpp lines 200-224) -/

/-- The reading loop of `PiecewiseLinearSpectrum::Read`: walks the flat value
list two at a time, carrying the previously accepted wavelength
(`lambda.back()` in the source), and rejects with a warning as soon as a
wavelength is not strictly greater than the previous one. -/
def plsReadLoop : List ℚ → Option ℚ → Except String (List (ℚ × ℚ))
  | [], _ => .ok []
  | [_], _ => .ok []
  | l :: v :: rest, last =>
    match last with
    | some lb =>
      if l ≤ lb then .error "spectrum file invalid: wavelengths not increasing"
      else
        match plsReadLoop rest (some l) with
        | .ok tail => .ok ((l, v) :: tail)
        | .error e => .error e
    | none =>
      match plsReadLoop rest (some l) with
      | .ok tail => .ok ((l, v) :: tail)
      | .error e => .error e

/-- Observable outcome of `PiecewiseLinearSpectrum::Read`: a spectrum
holding the parsed `(lambda, value)` pairs, a `Warning(...)` diagnostic
together with the empty optional result, or the constructor's fatal /
out-of-bounds outcomes. -/
inductive ReadResult where
  | ok (ps : List (ℚ × ℚ)) : ReadResult
  | warn (msg : String) : ReadResult
  | fatal : ReadResult
  | oob : ReadResult
deriving DecidableEq, Repr

/-- `PiecewiseLinearSpectrum::Read` (spectrum.cpp lines 200-224) with the
external `ReadFloatFile` call embedded as the `Option (List ℚ)` argument:
`none` contents when the file cannot be read.  After the parse loop builds
the `lambda` and `v` vectors (the first and second components of the
pairs), line 221 hands them to the `PiecewiseLinearSpectrum` constructor,
whose check-loop outcome (`CtorResult`) the result records. -/
def PiecewiseLinearSpectrum.Read (contents : Option (List ℚ)) : ReadResult :=
  match contents with
  | none => .warn "unable to read spectrum file"
  | some vals =>
    if vals.length % 2 ≠ 0 then .warn "extra value found in spectrum file"
    else
      match plsReadLoop vals none with
      | .error e => .warn e
      | .ok ps =>
        match PiecewiseLinearSpectrum.ctor (ps.map Prod.fst)
            (ps.map Prod.snd) with
        | .ok => .ok ps
        | .fatal => .fatal
        | .oob => .oob

/-- Interleave `(lambda, value)` pairs into the flat list layout of a
spectrum file. -/
def interleave (ps : List (ℚ × ℚ)) : List ℚ :=
  ps.flatMap (fun p => [p.1, p.2])

/-! ## Point evaluation of a piecewise-linear spectrum
(spectrum.cpp lines 165-174) -/

/-- Modelled from the spec: `Lerp` (pbrt/util/math.h, not under src/), the
linear interpolation `(1 - t) * a + t * b` used by
`PiecewiseLinearSpectrum::operator()`. -/
def Lerp (t a b : ℚ) : ℚ := (1 - t) * a + t * b

/-- Modelled from the spec: `FindInterval` (pbrt/util/math.h, not under
src/), the interval-locating binary search.  Its contract, recorded by the
`DCHECK(l >= lambda[offset] && l <= lambda[offset + 1])` at the call site in
`PiecewiseLinearSpectrum::operator()`, is to return the index of the
interval bracketing `l`: the largest index in `[0, size - 2]` whose
wavelength is at most `l`, with `0` as the clamped fallback. -/
def FindInterval (lambda : List ℚ) (l : ℚ) : ℕ :=
  (((List.range (lambda.length - 1)).filter
    (fun i => decide (lambda.getD i 0 ≤ l))).getLast?).getD 0

/-- `PiecewiseLinearSpectrum::operator()` (spectrum.cpp lines 165-174):
empty spectra evaluate to 0, wavelengths outside the sampled range clamp to
the boundary values, and interior wavelengths linearly interpolate within
the bracketing interval. -/
def PiecewiseLinearSpectrum.eval (lambda v : List ℚ) (l : ℚ) : ℚ :=
  if lambda.isEmpty then 0
  else if l ≤ lambda.headD 0 then v.headD 0
  else if lambda.getLastD 0 ≤ l then v.getLastD 0
  else
    let offset := FindInterval lambda l
    let t := (l - lambda.getD offset 0) /
      (lambda.getD (offset + 1) 0 - lambda.getD offset 0)
    Lerp t (v.getD offset 0) (v.getD (offset + 1) 0)

/-! ## The spectrum tagged union and Monte Carlo sampling

`SpectrumHandle` is a closed tagged union; the kinds needed by the claims
are embedded below.  A `SampledSpectrum` is the fixed-size vector of
`NSpectrumSamples` per-wavelength values; the sample count is kept as a
parameter `n`. -/

/-- The kinds of `SpectrumHandle` reachable by the claims: constant,
piecewise-linear, scaled, and product spectra. -/
inductive Spectrum where
  | constant (c : ℚ) : Spectrum
  | piecewiseLinear (lambda v : List ℚ) : Spectrum
  | scaled (scale : ℚ) (s : Spectrum) : Spectrum
  | product (s1 s2 : Spectrum) : Spectrum
deriving DecidableEq, Repr

/-- `SpectrumHandle::operator()`: tag dispatch of point evaluation.
Constant spectra return their constant, scaled spectra scale their operand,
product spectra multiply their operands, piecewise-linear spectra use
`PiecewiseLinearSpectrum::operator()`. -/
def Spectrum.eval : Spectrum → ℚ → ℚ
  | .constant c, _ => c
  | .piecewiseLinear lambda v, l => PiecewiseLinearSpectrum.eval lambda v l
  | .scaled scale s, l => scale * s.eval l
  | .product s1 s2, l => s1.eval l * s2.eval l

/-- The hero wavelengths and per-sample PDFs of a `SampledWavelengths`. -/
structure SampledWavelengths (n : ℕ) where
  lambda : Fin n → ℚ
  pdf : Fin n → ℚ

/-- Component-wise product of two `SampledSpectrum` values
(`SampledSpectrum::operator*`). -/
def ssMul {n : ℕ} (a b : Fin n → ℚ) : Fin n → ℚ := fun i => a i * b i

/-- Scalar multiple of a `SampledSpectrum` (`Float * SampledSpectrum`). -/
def ssScale {n : ℕ} (k : ℚ) (a : Fin n → ℚ) : Fin n → ℚ := fun i => k * a i

/-- `Sample` dispatch for the embedded spectrum kinds.
`ConstantSpectrum::Sample` (spectrum.cpp lines 245-247) returns the constant
at every sample; a piecewise-linear spectrum evaluates itself at each hero
wavelength; `ScaledSpectrum::Sample` (lines 263-265) is
`scale * s.Sample(lambda)`; `ProductSpectrum::Sample` (lines 281-283) is
`s1.Sample(lambda) * s2.Sample(lambda)`. -/
def Spectrum.Sample {n : ℕ} : Spectrum → SampledWavelengths n → (Fin n → ℚ)
  | .constant c, _ => fun _ => c
  | .piecewiseLinear lam v, swl => fun i =>
      PiecewiseLinearSpectrum.eval lam v (swl.lambda i)
  | .scaled scale s, swl => ssScale scale (s.Sample swl)
  | .product s1 s2, swl => ssMul (s1.Sample swl) (s2.Sample swl)

/-! ## Blackbody (spectrum.cpp lines 52-65, 226-231) -/

/-- `Blackbody(lambda, T)` (spectrum.cpp lines 52-65): 0 for `T <= 0`,
otherwise Planck's law with the exact rational physical constants of the
source; `std::exp` is the abstract argument `expf`. -/
def Blackbody (expf : ℚ → ℚ) (lambda T : ℚ) : ℚ :=
  if T ≤ 0 then 0
  else
    let c : ℚ := 299792458
    let h : ℚ := 662606957 / 10 ^ 42
    let kb : ℚ := 13806488 / 10 ^ 30
    let l : ℚ := lambda * (1 / 10 ^ 9)
    (2 * h * c * c) / (l ^ 5 * (expf ((h * c) / (l * kb * T)) - 1))

/-- The divisor of the Planck quotient in `Blackbody`; the
`CHECK(!std::isnan(Le))` assertion is embedded as this divisor being
nonzero (the quotient is then a genuine value, not `0/0`). -/
def blackbodyDivisor (expf : ℚ → ℚ) (lambda T : ℚ) : ℚ :=
  let c : ℚ := 299792458
  let h : ℚ := 662606957 / 10 ^ 42
  let kb : ℚ := 13806488 / 10 ^ 30
  let l : ℚ := lambda * (1 / 10 ^ 9)
  l ^ 5 * (expf ((h * c) / (l * kb * T)) - 1)

/-- `BlackbodySpectrum::Sample` (spectrum.cpp lines 226-231): at each of the
`NSpectrumSamples` wavelengths, the stored scale times `Blackbody` there. -/
def BlackbodySpectrum.Sample {n : ℕ} (expf : ℚ → ℚ) (T scale : ℚ)
    (swl : SampledWavelengths n) : Fin n → ℚ :=
  fun i => scale * Blackbody expf (swl.lambda i) T

/-! ## Spectrum-to-tristimulus integration (spectrum.cpp lines 139-154)

`SpectrumToY` runs `for (Float lambda = LambdaMin; lambda <= LambdaMax;
++lambda) y += SPDs::Y()(lambda) * s(lambda);` and divides by
`SPDs::CIE_Y_integral`.  The range bounds `LambdaMin`/`LambdaMax`, the CIE
matching curves and the integral constant live outside src/ and are kept as
parameters. -/

/-- The XYZ tristimulus triple. -/
structure XYZ where
  X : ℚ
  Y : ℚ
  Z : ℚ
deriving DecidableEq, Repr

/-- `SpectrumToY` (spectrum.cpp lines 139-144): the unit-step accumulation
loop over wavelengths `lambdaMin, lambdaMin + 1, ..., lambdaMax`, divided by
the CIE Y integral constant. -/
def SpectrumToY (Ycurve s : ℚ → ℚ) (lambdaMin lambdaMax : ℤ) (cieY : ℚ) : ℚ :=
  ((List.range (lambdaMax - lambdaMin + 1).toNat).foldl
    (fun y (k : ℕ) =>
      y + Ycurve (lambdaMin + (k : ℚ)) * s (lambdaMin + (k : ℚ))) 0) / cieY

/-- `SpectrumToXYZ` (spectrum.cpp lines 146-154): the same unit-step loop
accumulating all three matching curves, divided by the CIE Y integral
constant. -/
def SpectrumToXYZ (Xcurve Ycurve Zcurve s : ℚ → ℚ) (lambdaMin lambdaMax : ℤ)
    (cieY : ℚ) : XYZ :=
  let acc := (List.range (lambdaMax - lambdaMin + 1).toNat).foldl
    (fun xyz (k : ℕ) =>
      XYZ.mk (xyz.X + Xcurve (lambdaMin + (k : ℚ)) * s (lambdaMin + (k : ℚ)))
        (xyz.Y + Ycurve (lambdaMin + (k : ℚ)) * s (lambdaMin + (k : ℚ)))
        (xyz.Z + Zcurve (lambdaMin + (k : ℚ)) * s (lambdaMin + (k : ℚ))))
    (XYZ.mk 0 0 0)
  XYZ.mk (acc.X / cieY) (acc.Y / cieY) (acc.Z / cieY)

/-! ## SampledSpectrum to tristimulus (spectrum.cpp lines 372-381, 393-405)

`Ys`, `Xs`, `Zs` stand for `SPDs::X()/Y()/Z().Sample(lambda)`; `cieY` for
`SPDs::CIE_Y_integral`.  The `if (lambda.pdf[i] == 0) continue;` branch of
the source is embedded literally. -/

/-- `SampledSpectrum::y` (spectrum.cpp lines 372-381): accumulate
`Ys[i] * v[i] / pdf[i]` over the samples, skipping samples with zero PDF,
then divide by `CIE_Y_integral * NSpectrumSamples`. -/
def SampledSpectrum.y {n : ℕ} (v : Fin n → ℚ) (pdf : Fin n → ℚ)
    (Ys : Fin n → ℚ) (cieY : ℚ) : ℚ :=
  ((List.finRange n).foldl
    (fun ySum i => if pdf i = 0 then ySum else ySum + Ys i * v i / pdf i) 0) /
    (cieY * n)

/-- `SampledSpectrum::ToXYZ` (spectrum.cpp lines 393-405): the same
zero-PDF-skipping accumulation for the three matching curves, divided by
`CIE_Y_integral * NSpectrumSamples`. -/
def SampledSpectrum.ToXYZ {n : ℕ} (v : Fin n → ℚ) (pdf : Fin n → ℚ)
    (Xs Ys Zs : Fin n → ℚ) (cieY : ℚ) : XYZ :=
  let acc := (List.finRange n).foldl
    (fun xyz i =>
      if pdf i = 0 then xyz
      else XYZ.mk (xyz.X + Xs i * v i / pdf i) (xyz.Y + Ys i * v i / pdf i)
        (xyz.Z + Zs i * v i / pdf i))
    (XYZ.mk 0 0 0)
  XYZ.mk (acc.X / (cieY * n)) (acc.Y / (cieY * n)) (acc.Z / (cieY * n))

/-! ## RGBSpectrum construction (spectrum.cpp lines 343-348) -/

/-- An RGB triple. -/
structure RGB where
  r : ℚ
  g : ℚ
  b : ℚ
deriving DecidableEq, Repr

/-- `std::max({rgb.r, rgb.g, rgb.b})`. -/
def RGB.maxComp (rgb : RGB) : ℚ := max rgb.r (max rgb.g rgb.b)

/-- The fields of `RGBColorSpace` that `RGBSpectrum`'s constructor reads;
the illuminant is kept abstract over its representation type. -/
structure RGBColorSpaceM (σ : Type) where
  illuminant : σ

/-- The fields of `RGBSpectrum` set by its constructor (the fitted
coefficient polynomial `rsp` comes from the external `cs.ToRGBCoeffs` and is
not modelled). -/
structure RGBSpectrumM (σ : Type) where
  rgb : RGB
  illuminant : σ
  scale : ℚ

/-- `RGBSpectrum::RGBSpectrum` (spectrum.cpp lines 343-348): stores the RGB
triple, a reference to the color space's illuminant, and
`scale = m > 0 ? 0.5f / m : 0` where `m` is the maximum component. -/
def RGBSpectrum.ctor {σ : Type} (cs : RGBColorSpaceM σ) (rgb : RGB) :
    RGBSpectrumM σ :=
  let m := rgb.maxComp
  { rgb := rgb
    illuminant := cs.illuminant
    scale := if 0 < m then (1 / 2) / m else 0 }

/-! ## DenselySampledSpectrum construction (spectrum.cpp lines 299-306) -/

/-- `DenselySampledSpectrum::DenselySampledSpectrum` (spectrum.cpp lines
299-306): `CHECK_GE(lambdaMax, lambdaMin)` (embedded as `none` on failure),
then a table of `lambdaMax - lambdaMin + 1` entries where entry
`lambda - lambdaMin` holds `s(lambda + 0.5f)`. -/
def DenselySampledSpectrum.ctor (s : Spectrum) (lambdaMin lambdaMax : ℤ) :
    Option (List ℚ) :=
  if lambdaMax < lambdaMin then none
  else some ((List.range (lambdaMax - lambdaMin + 1).toNat).map
    (fun (k : ℕ) => s.eval ((lambdaMin : ℚ) + (k : ℚ) + 1 / 2)))

/-! ## SPDs::FindMatchingNamed (spectrum.cpp lines 1934-1946) -/

/-- The ten canonical probe wavelengths of `sampledLambdasMatch`
(380, 402, 455, 503, 579, 610, 660, 692, 702, 715.5). -/
def probeWavelengths : List ℚ :=
  [380, 402, 455, 503, 579, 610, 660, 692, 702, 1431 / 2]

/-- The `sampledLambdasMatch` lambda inside `SPDs::FindMatchingNamed`:
two spectra match iff they evaluate equal at all ten probe wavelengths. -/
def sampledLambdasMatch (a b : Spectrum) : Bool :=
  probeWavelengths.all (fun l => decide (a.eval l = b.eval l))

namespace SPDs

/-- `SPDs::FindMatchingNamed` (spectrum.cpp lines 1934-1946): walk the
registered named-spectrum table (in its `std::map` iteration order) and
return the first name whose spectrum matches at all ten probes, or the
empty string. -/
def FindMatchingNamed (table : List (String × Spectrum)) (s : Spectrum) :
    String :=
  match table with
  | [] => ""
  | (name, spd) :: rest =>
    if sampledLambdasMatch s spd then name else FindMatchingNamed rest s

end SPDs

/-! ## Helper lemmas -/

theorem sum_range_eq_list (g : ℕ → ℚ) (m : ℕ) :
    ∑ k ∈ Finset.range m, g k = ((List.range m).map g).sum := by
  induction m with
  | zero => simp
  | succ k ih => simp [Finset.sum_range_succ, List.range_succ, ih]

theorem foldlAdd {α : Type} (g : α → ℚ) :
    ∀ (xs : List α) (a : ℚ),
      xs.foldl (fun y k => y + g k) a = a + (xs.map g).sum := by
  intro xs
  induction xs with
  | nil => intro a; simp
  | cons x xs ih => intro a; simp [ih]; ring

theorem foldlAddXYZ {α : Type} (fX fY fZ : α → ℚ) :
    ∀ (xs : List α) (a : XYZ),
      xs.foldl
        (fun xyz i =>
          XYZ.mk (xyz.X + fX i) (xyz.Y + fY i) (xyz.Z + fZ i)) a =
        XYZ.mk (a.X + (xs.map fX).sum) (a.Y + (xs.map fY).sum)
          (a.Z + (xs.map fZ).sum) := by
  intro xs
  induction xs with
  | nil => intro a; simp
  | cons x xs ih => intro a; simp [ih]; refine ⟨by ring, by ring, by ring⟩

theorem foldlSkip {α : Type} (p g : α → ℚ) :
    ∀ (xs : List α) (a : ℚ),
      xs.foldl (fun acc i => if p i = 0 then acc else acc + g i) a =
        a + (xs.map (fun i => if p i = 0 then 0 else g i)).sum := by
  intro xs
  induction xs with
  | nil => intro a; simp
  | cons x xs ih =>
    intro a
    by_cases h : p x = 0 <;> simp [h, ih] <;> ring

theorem foldlSkipXYZ {α : Type} (p fX fY fZ : α → ℚ) :
    ∀ (xs : List α) (a : XYZ),
      xs.foldl
        (fun xyz i =>
          if p i = 0 then xyz
          else XYZ.mk (xyz.X + fX i) (xyz.Y + fY i) (xyz.Z + fZ i)) a =
        XYZ.mk (a.X + (xs.map (fun i => if p i = 0 then 0 else fX i)).sum)
          (a.Y + (xs.map (fun i => if p i = 0 then 0 else fY i)).sum)
          (a.Z + (xs.map (fun i => if p i = 0 then 0 else fZ i)).sum) := by
  intro xs
  induction xs with
  | nil => intro a; simp
  | cons x xs ih =>
    intro a
    by_cases h : p x = 0 <;> simp [h, ih] <;>
      refine ⟨by ring, by ring, by ring⟩

theorem interleave_nil : interleave [] = [] := rfl

theorem interleave_cons (p : ℚ × ℚ) (ps : List (ℚ × ℚ)) :
    interleave (p :: ps) = p.1 :: p.2 :: interleave ps := rfl

theorem interleave_length (ps : List (ℚ × ℚ)) :
    (interleave ps).length = 2 * ps.length := by
  induction ps with
  | nil => rfl
  | cons p ps ih => rw [interleave_cons]; simp [ih]; omega

theorem plsReadLoop_ok (ps : List (ℚ × ℚ)) :
    ∀ last : Option ℚ,
      List.Chain' (· < ·) (last.toList ++ ps.map Prod.fst) →
      plsReadLoop (interleave ps) last = .ok ps := by
  induction ps with
  | nil => intro last _; cases last <;> rfl
  | cons p rest ih =>
    intro last hchain
    obtain ⟨l, v⟩ := p
    rw [interleave_cons]
    cases last with
    | none =>
      have hch : List.Chain' (· < ·)
          ((some l).toList ++ rest.map Prod.fst) := by simpa using hchain
      simp only [plsReadLoop, ih (some l) hch]
    | some lb =>
      have hchain2 : List.Chain' (· < ·)
          (lb :: l :: rest.map Prod.fst) := by simpa using hchain
      obtain ⟨hlb, htail⟩ := List.chain'_cons.mp hchain2
      have hch : List.Chain' (· < ·)
          ((some l).toList ++ rest.map Prod.fst) := by simpa using htail
      simp only [plsReadLoop, if_neg (not_le.mpr hlb), ih (some l) hch]

theorem plsReadLoop_err (ps : List (ℚ × ℚ)) :
    ∀ last : Option ℚ,
      ¬ List.Chain' (· < ·) (last.toList ++ ps.map Prod.fst) →
      ∃ msg, plsReadLoop (interleave ps) last = .error msg := by
  induction ps with
  | nil =>
    intro last h
    exfalso
    apply h
    cases last <;> simp
  | cons p rest ih =>
    intro last h
    obtain ⟨l, v⟩ := p
    rw [interleave_cons]
    cases last with
    | none =>
      have h2 : ¬ List.Chain' (· < ·)
          ((some l).toList ++ rest.map Prod.fst) := by simpa using h
      obtain ⟨msg, hm⟩ := ih (some l) h2
      exact ⟨msg, by simp only [plsReadLoop, hm]⟩
    | some lb =>
      by_cases hle : l ≤ lb
      · exact ⟨"spectrum file invalid: wavelengths not increasing",
          by simp only [plsReadLoop, if_pos hle]⟩
      · have hlb : lb < l := not_le.mp hle
        have h2 : ¬ List.Chain' (· < ·)
            ((some l).toList ++ rest.map Prod.fst) := by
          intro hc
          apply h
          simp only [Option.toList_some, List.cons_append,
            List.nil_append] at hc ⊢
          exact List.chain'_cons.mpr ⟨hlb, by simpa using hc⟩
        obtain ⟨msg, hm⟩ := ih (some l) h2
        exact ⟨msg, by simp only [plsReadLoop, if_neg hle, hm]⟩

theorem filter_range_eq (p : ℕ → Bool) (m k : ℕ) (hk : k ≤ m)
    (h : ∀ j, j < m → (p j = true ↔ j < k)) :
    (List.range m).filter p = List.range k := by
  induction m with
  | zero =>
    have hk0 : k = 0 := by omega
    subst hk0
    rfl
  | succ m ih =>
    rw [List.range_succ, List.filter_append]
    by_cases hkm : k = m + 1
    · subst hkm
      have hall : (List.range m).filter p = List.range m :=
        List.filter_eq_self.mpr
          (fun a ha => (h a (by
            simpa using Nat.lt_succ_of_lt (List.mem_range.mp ha))).mpr
            (Nat.lt_succ_of_lt (List.mem_range.mp ha)))
      have hpm : p m = true := (h m (by omega)).mpr (by omega)
      rw [hall, List.filter_cons, if_pos hpm, List.range_succ]
      rfl
    · have hk2 : k ≤ m := by omega
      have h2 : ∀ j, j < m → (p j = true ↔ j < k) :=
        fun j hj => h j (by omega)
      have hpm : p m = false := by
        cases hp : p m with
        | false => rfl
        | true => exact absurd ((h m (by omega)).mp hp) (by omega)
      rw [ih hk2 h2, List.filter_cons, if_neg (by simp [hpm])]
      simp

theorem pairwise_get_le (lambda : List ℚ)
    (hpw : List.Pairwise (· < ·) lambda) (i j : ℕ) (hij : i ≤ j)
    (hj : j < lambda.length) :
    lambda.get ⟨i, by omega⟩ ≤ lambda.get ⟨j, hj⟩ := by
  rcases eq_or_lt_of_le hij with rfl | hlt
  · exact le_refl _
  · exact le_of_lt (List.pairwise_iff_get.mp hpw ⟨i, by omega⟩ ⟨j, hj⟩ hlt)

theorem findInterval_bracket (lambda : List ℚ) (l : ℚ) (i : ℕ)
    (hi : i + 1 < lambda.length) (hpw : List.Pairwise (· < ·) lambda)
    (hlo : lambda.get ⟨i, by omega⟩ ≤ l) (hhi : l < lambda.get ⟨i + 1, hi⟩) :
    FindInterval lambda l = i := by
  rw [FindInterval]
  have hfil : (List.range (lambda.length - 1)).filter
      (fun j => decide (lambda.getD j 0 ≤ l)) = List.range (i + 1) := by
    apply filter_range_eq _ _ _ (by omega)
    intro j hj
    have hjlen : j < lambda.length := by omega
    rw [decide_eq_true_eq, List.getD_eq_getElem lambda 0 hjlen]
    show lambda.get ⟨j, hjlen⟩ ≤ l ↔ j < i + 1
    constructor
    · intro hle
      by_contra hji
      have hij : i + 1 ≤ j := by omega
      have := pairwise_get_le lambda hpw (i + 1) j hij hjlen
      linarith
    · intro hji
      have hle2 : lambda.get ⟨j, hjlen⟩ ≤ lambda.get ⟨i, by omega⟩ :=
        pairwise_get_le lambda hpw j i (by omega) (by omega)
      linarith
  rw [hfil, List.range_succ, List.getLast?_concat]
  rfl

/-- C3: `SpectrumToY(s)` equals the unit-step Riemann sum of
`Y(lambda) * s(lambda)` over the integer-spaced wavelengths from
`LambdaMin` to `LambdaMax`, divided by the CIE Y integral constant, and
`SpectrumToXYZ(s)` equals the corresponding three Riemann sums against the
X, Y, Z matching curves divided by the same constant. -/
theorem spectrumToY_toXYZ_riemann_sum (Xc Yc Zc s : ℚ → ℚ)
    (lambdaMin lambdaMax : ℤ) (cieY : ℚ) :
    SpectrumToY Yc s lambdaMin lambdaMax cieY =
      (∑ k ∈ Finset.range (lambdaMax - lambdaMin + 1).toNat,
        Yc (lambdaMin + (k : ℚ)) * s (lambdaMin + (k : ℚ))) / cieY ∧
    SpectrumToXYZ Xc Yc Zc s lambdaMin lambdaMax cieY =
      XYZ.mk
        ((∑ k ∈ Finset.range (lambdaMax - lambdaMin + 1).toNat,
          Xc (lambdaMin + (k : ℚ)) * s (lambdaMin + (k : ℚ))) / cieY)
        ((∑ k ∈ Finset.range (lambdaMax - lambdaMin + 1).toNat,
          Yc (lambdaMin + (k : ℚ)) * s (lambdaMin + (k : ℚ))) / cieY)
        ((∑ k ∈ Finset.range (lambdaMax - lambdaMin + 1).toNat,
          Zc (lambdaMin + (k : ℚ)) * s (lambdaMin + (k : ℚ))) / cieY) := by
  constructor
  · rw [SpectrumToY, foldlAdd, sum_range_eq_list, zero_add]
  · rw [SpectrumToXYZ]
    rw [foldlAddXYZ
      (fun (k : ℕ) => Xc (lambdaMin + (k : ℚ)) * s (lambdaMin + (k : ℚ)))
      (fun (k : ℕ) => Yc (lambdaMin + (k : ℚ)) * s (lambdaMin + (k : ℚ)))
      (fun (k : ℕ) => Zc (lambdaMin + (k : ℚ)) * s (lambdaMin + (k : ℚ)))]
    simp [sum_range_eq_list]

/-- C4: `SampledSpectrum::y` and `SampledSpectrum::ToXYZ` divide each
sample's value by that sample's PDF, every sample with PDF 0 contributes
exactly nothing (its term is literally 0, no division performed), and the
accumulated sum is divided by `CIE_Y_integral * NSpectrumSamples`. -/
theorem sampledSpectrum_y_toXYZ_pdf_guard {n : ℕ}
    (v pdf Xs Ys Zs : Fin n → ℚ) (cieY : ℚ) :
    SampledSpectrum.y v pdf Ys cieY =
      (∑ i : Fin n, if pdf i = 0 then 0 else Ys i * v i / pdf i) /
        (cieY * n) ∧
    SampledSpectrum.ToXYZ v pdf Xs Ys Zs cieY =
      XYZ.mk
        ((∑ i : Fin n, if pdf i = 0 then 0 else Xs i * v i / pdf i) /
          (cieY * n))
        ((∑ i : Fin n, if pdf i = 0 then 0 else Ys i * v i / pdf i) /
          (cieY * n))
        ((∑ i : Fin n, if pdf i = 0 then 0 else Zs i * v i / pdf i) /
          (cieY * n)) := by
  constructor
  · rw [SampledSpectrum.y, foldlSkip pdf (fun i => Ys i * v i / pdf i),
      Fin.sum_univ_def, zero_add]
  · rw [SampledSpectrum.ToXYZ]
    rw [foldlSkipXYZ pdf (fun i => Xs i * v i / pdf i)
      (fun i => Ys i * v i / pdf i) (fun i => Zs i * v i / pdf i)]
    simp [Fin.sum_univ_def]

/-- C7: `ProductSpectrum::Sample` is the component-wise product of its two
operands' `Sample` results, and `ScaledSpectrum::Sample` is its scale times
its operand's `Sample` result. -/
theorem productScaledSpectrum_sample_compose {n : ℕ}
    (swl : SampledWavelengths n) (s1 s2 s : Spectrum) (k : ℚ) (i : Fin n) :
    (Spectrum.product s1 s2).Sample swl i =
      s1.Sample swl i * s2.Sample swl i ∧
    (Spectrum.scaled k s).Sample swl i = k * s.Sample swl i :=
  ⟨rfl, rfl⟩

/-- C10: for `lambdaMin <= lambdaMax` the `DenselySampledSpectrum`
constructor builds a table of exactly `lambdaMax - lambdaMin + 1` entries
whose entry for integer wavelength `lambda` holds `s(lambda + 0.5)`; for
`lambdaMax < lambdaMin` the `CHECK_GE` assertion fires (no table). -/
theorem denselySampledSpectrum_ctor_table (s : Spectrum)
    (lambdaMin lambdaMax : ℤ) :
    (lambdaMin ≤ lambdaMax →
      ∃ tbl : List ℚ, DenselySampledSpectrum.ctor s lambdaMin lambdaMax =
          some tbl ∧
        (tbl.length : ℤ) = lambdaMax - lambdaMin + 1 ∧
        ∀ (k : ℕ) (hk : k < tbl.length),
          tbl.get ⟨k, hk⟩ = s.eval ((lambdaMin : ℚ) + (k : ℚ) + 1 / 2)) ∧
    (lambdaMax < lambdaMin →
      DenselySampledSpectrum.ctor s lambdaMin lambdaMax = none) := by
  constructor
  · intro hle
    rw [DenselySampledSpectrum.ctor, if_neg (by omega)]
    refine ⟨_, rfl, ?_, ?_⟩
    · rw [List.length_map, List.length_range]
      omega
    · intro k hk
      rw [List.get_map]
      congr 1
      simp
  · intro hlt
    rw [DenselySampledSpectrum.ctor, if_pos hlt]

/-- C10 witness: at `s = constant 7`, `lambdaMin = 2`, `lambdaMax = 4` the
constructor yields a 3-entry table of the constant, and with the bounds
swapped it fails. -/
theorem denselySampledSpectrum_ctor_table_witness :
    (∃ tbl : List ℚ, DenselySampledSpectrum.ctor (.constant 7) 2 4 =
        some tbl ∧
      (tbl.length : ℤ) = 4 - 2 + 1 ∧
      ∀ (k : ℕ) (hk : k < tbl.length),
        tbl.get ⟨k, hk⟩ = Spectrum.eval (.constant 7) ((2 : ℚ) + (k : ℚ) + 1 / 2)) ∧
    DenselySampledSpectrum.ctor (.constant 7) 4 2 = none :=
  ⟨(denselySampledSpectrum_ctor_table (.constant 7) 2 4).1 (by norm_num),
    (denselySampledSpectrum_ctor_table (.constant 7) 4 2).2 (by norm_num)⟩

theorem plsCtor_nil_oob :
    PiecewiseLinearSpectrum.ctor [] [] = CtorResult.oob := by
  have hb : sizeTSub1 (List.length ([] : List ℚ)) = (2 ^ 64 - 2) + 1 := by
    rw [List.length_nil, sizeTSub1, sizeTMod]
    norm_num
  rw [PiecewiseLinearSpectrum.ctor, if_neg (by simp), hb, plsCheckFrom]
  simp

theorem plsCheckFrom_ok (lambda : List ℚ)
    (hpw : List.Pairwise (· < ·) lambda) :
    ∀ i steps : ℕ, i + steps + 1 ≤ lambda.length →
      plsCheckFrom lambda i steps = .ok := by
  intro i steps
  induction steps generalizing i with
  | zero => intro _; rfl
  | succ st ih =>
    intro hle
    have h1 : i + 1 < lambda.length := by omega
    have hlt : lambda.get ⟨i, by omega⟩ < lambda.get ⟨i + 1, h1⟩ :=
      List.pairwise_iff_get.mp hpw ⟨i, by omega⟩ ⟨i + 1, h1⟩
        (Fin.mk_lt_mk.mpr (by omega))
    rw [plsCheckFrom, dif_pos h1, if_pos hlt]
    exact ih (i + 1) (by omega)

theorem plsCtor_ok (lambda v : List ℚ) (hne : lambda ≠ [])
    (hlen : lambda.length = v.length)
    (hinc : List.Chain' (· < ·) lambda) :
    PiecewiseLinearSpectrum.ctor lambda v = CtorResult.ok := by
  have hpw : List.Pairwise (· < ·) lambda :=
    List.chain'_iff_pairwise.mp hinc
  have hpos : 0 < lambda.length := List.length_pos.mpr hne
  have hsub : sizeTSub1 lambda.length ≤ lambda.length - 1 := by
    have heq : lambda.length + sizeTMod - 1 =
        (lambda.length - 1) + sizeTMod := by
      have : 1 ≤ sizeTMod := by rw [sizeTMod]; norm_num
      omega
    calc sizeTSub1 lambda.length = (lambda.length - 1) % sizeTMod := by
          rw [sizeTSub1, heq, Nat.add_mod_right]
      _ ≤ lambda.length - 1 := Nat.mod_le _ _
  rw [PiecewiseLinearSpectrum.ctor, if_neg (by omega)]
  exact plsCheckFrom_ok lambda hpw 0 (sizeTSub1 lambda.length) (by omega)

/-- C2 (code bug): the `PiecewiseLinearSpectrum` constructor run on the
empty pair of arrays: the `size_t` loop bound `lambda.size() - 1` wraps to
`2^64 - 1`, and the first iteration indexes `lambda[0]` and `lambda[1]`
out of bounds. -/
theorem piecewiseLinearSpectrum_ctor_empty_oob :
    PiecewiseLinearSpectrum.ctor [] [] = CtorResult.oob :=
  plsCtor_nil_oob

/-- C6 counterexample: for the RGB triple `(0, 0, 0)` the stored scale is 0,
so the maximum component times the scale is 0, not 0.5. -/
theorem rgbSpectrum_scale_claim_fails :
    ¬ ((RGB.mk 0 0 0).maxComp *
        (RGBSpectrum.ctor (σ := ℚ) ⟨0⟩ (RGB.mk 0 0 0)).scale = 1 / 2) := by
  norm_num [RGBSpectrum.ctor, RGB.maxComp]

/-- C6 (amended): the `RGBSpectrum` constructor stores the color space's
illuminant; whenever the maximum RGB component is positive, that maximum
times the stored scale equals 0.5, and otherwise the stored scale is 0. -/
theorem rgbSpectrum_ctor_illuminant_scale {σ : Type}
    (cs : RGBColorSpaceM σ) (rgb : RGB) :
    (RGBSpectrum.ctor cs rgb).illuminant = cs.illuminant ∧
    (0 < rgb.maxComp →
      rgb.maxComp * (RGBSpectrum.ctor cs rgb).scale = 1 / 2) ∧
    (¬ 0 < rgb.maxComp → (RGBSpectrum.ctor cs rgb).scale = 0) := by
  refine ⟨rfl, ?_, ?_⟩
  · intro hm
    rw [RGBSpectrum.ctor]
    simp only [if_pos hm]
    field_simp
    ring
  · intro hm
    rw [RGBSpectrum.ctor]
    simp only [if_neg hm]

/-- C6 witness: for the RGB triple `(1, 2, 3)` the maximum component 3
times the stored scale is 0.5, and the illuminant is the color space's. -/
theorem rgbSpectrum_ctor_illuminant_scale_witness :
    (RGBSpectrum.ctor (σ := ℚ) ⟨7⟩ (RGB.mk 1 2 3)).illuminant = 7 ∧
    (RGB.mk 1 2 3).maxComp *
      (RGBSpectrum.ctor (σ := ℚ) ⟨7⟩ (RGB.mk 1 2 3)).scale = 1 / 2 :=
  ⟨(rgbSpectrum_ctor_illuminant_scale ⟨7⟩ (RGB.mk 1 2 3)).1,
    (rgbSpectrum_ctor_illuminant_scale ⟨7⟩ (RGB.mk 1 2 3)).2.1
      (by norm_num [RGB.maxComp])⟩

/-- C8: for `T <= 0`, `Blackbody` returns 0; for positive wavelength and
`T > 0`, the divisor of the Planck quotient is positive (so the quotient is
a well-defined value and the non-NaN assertion holds in the model), given
that `exp` maps positive arguments above 1; and `BlackbodySpectrum::Sample`
returns the caller-supplied scale times `Blackbody` at each of the sampled
wavelengths. -/
theorem blackbody_nonNaN_and_sample {n : ℕ} (expf : ℚ → ℚ)
    (hexp : ∀ x : ℚ, 0 < x → 1 < expf x) (lambda T : ℚ) (hl : 0 < lambda)
    (swl : SampledWavelengths n) (T0 scale : ℚ) (i : Fin n) :
    (T ≤ 0 → Blackbody expf lambda T = 0) ∧
    (0 < T → 0 < blackbodyDivisor expf lambda T) ∧
    BlackbodySpectrum.Sample expf T0 scale swl i =
      scale * Blackbody expf (swl.lambda i) T0 := by
  refine ⟨?_, ?_, rfl⟩
  · intro hT
    rw [Blackbody, if_pos hT]
  · intro hT
    rw [blackbodyDivisor]
    have hlpos : (0 : ℚ) < lambda * (1 / 10 ^ 9) := by positivity
    have harg : (0 : ℚ) <
        662606957 / 10 ^ 42 * 299792458 /
          (lambda * (1 / 10 ^ 9) * (13806488 / 10 ^ 30) * T) := by
      positivity
    have hexp1 := hexp _ harg
    have h5 : (0 : ℚ) < (lambda * (1 / 10 ^ 9)) ^ 5 := by positivity
    calc (0 : ℚ) < (lambda * (1 / 10 ^ 9)) ^ 5 *
          (expf (662606957 / 10 ^ 42 * 299792458 /
            (lambda * (1 / 10 ^ 9) * (13806488 / 10 ^ 30) * T)) - 1) := by
          apply mul_pos h5
          linarith
      _ = _ := by ring

/-- C8 witness: with `exp` modelled by `x + 1` (above 1 on positive
arguments), `Blackbody` vanishes at `T = -5` and has positive divisor at
wavelength 500 and `T = 6500`. -/
theorem blackbody_nonNaN_and_sample_witness :
    Blackbody (fun x => x + 1) 500 (-5) = 0 ∧
    0 < blackbodyDivisor (fun x => x + 1) 500 6500 :=
  ⟨(blackbody_nonNaN_and_sample (n := 1) (fun x => x + 1)
      (fun x hx => by change 1 < x + 1; linarith) 500 (-5) (by norm_num)
      ⟨fun _ => 400, fun _ => 1⟩ (-5) 2 0).1 (by norm_num),
    (blackbody_nonNaN_and_sample (n := 1) (fun x => x + 1)
      (fun x hx => by change 1 < x + 1; linarith) 500 6500 (by norm_num)
      ⟨fun _ => 400, fun _ => 1⟩ 6500 2 0).2.1 (by norm_num)⟩

/-- C9: `SPDs::FindMatchingNamed(s)` returns a non-empty string only when a
registered spectrum of that name evaluates identically to `s` at all ten
canonical probe wavelengths, and returns the empty string when no
registered spectrum agrees with `s` at all ten of them. -/
theorem findMatchingNamed_probe_agreement
    (table : List (String × Spectrum)) (s : Spectrum) :
    (SPDs.FindMatchingNamed table s ≠ "" →
      ∃ spd : Spectrum, (SPDs.FindMatchingNamed table s, spd) ∈ table ∧
        ∀ l ∈ probeWavelengths, spd.eval l = s.eval l) ∧
    ((∀ p ∈ table, ∃ l ∈ probeWavelengths, p.2.eval l ≠ s.eval l) →
      SPDs.FindMatchingNamed table s = "") := by
  induction table with
  | nil => exact ⟨fun h => absurd rfl h, fun _ => rfl⟩
  | cons hd rest ih =>
    obtain ⟨name, spd⟩ := hd
    by_cases hmatch : sampledLambdasMatch s spd = true
    · have hagree : ∀ l ∈ probeWavelengths, spd.eval l = s.eval l := by
        intro l hl
        have := (List.all_eq_true.mp hmatch) l hl
        exact (of_decide_eq_true this).symm
      constructor
      · intro _
        refine ⟨spd, ?_, hagree⟩
        have : SPDs.FindMatchingNamed ((name, spd) :: rest) s = name := by
          rw [SPDs.FindMatchingNamed, if_pos hmatch]
        rw [this]
        exact List.mem_cons_self _ _
      · intro hall
        obtain ⟨l, hl, hne⟩ := hall (name, spd) (List.mem_cons_self _ _)
        exact absurd (hagree l hl) hne
    · have hstep : SPDs.FindMatchingNamed ((name, spd) :: rest) s =
          SPDs.FindMatchingNamed rest s := by
        rw [SPDs.FindMatchingNamed, if_neg hmatch]
      constructor
      · intro hne
        rw [hstep] at hne ⊢
        obtain ⟨spd2, hmem, hagree⟩ := ih.1 hne
        exact ⟨spd2, List.mem_cons_of_mem _ hmem, hagree⟩
      · intro hall
        rw [hstep]
        exact ih.2 (fun p hp => hall p (List.mem_cons_of_mem _ hp))

/-- C9 witness: on a concrete two-entry table, the probe of a constant
spectrum finds the matching entry and misses when nothing matches. -/
theorem findMatchingNamed_probe_agreement_witness :
    (∃ spd : Spectrum,
      (SPDs.FindMatchingNamed
          [("zero", Spectrum.constant 0), ("two", Spectrum.constant 2)]
          (Spectrum.constant 2), spd) ∈
        [("zero", Spectrum.constant 0), ("two", Spectrum.constant 2)] ∧
      ∀ l ∈ probeWavelengths, spd.eval l = (Spectrum.constant 2).eval l) ∧
    SPDs.FindMatchingNamed [("zero", Spectrum.constant 0)]
      (Spectrum.constant 2) = "" :=
  ⟨(findMatchingNamed_probe_agreement
      [("zero", Spectrum.constant 0), ("two", Spectrum.constant 2)]
      (Spectrum.constant 2)).1 (by decide),
    (findMatchingNamed_probe_agreement [("zero", Spectrum.constant 0)]
      (Spectrum.constant 2)).2 (by decide)⟩


/-- C1 counterexample: the empty file (zero values: even count, vacuously
strictly increasing wavelengths) is well-formed under the claim, yet `Read`
does not return a spectrum: the parsed arrays are empty and the constructor
call at line 221 runs its wrapped check loop out of bounds. -/
theorem piecewiseLinearSpectrum_read_empty_not_ok :
    PiecewiseLinearSpectrum.Read (some ([] : List ℚ)) = ReadResult.oob ∧
    PiecewiseLinearSpectrum.Read (some ([] : List ℚ)) ≠ ReadResult.ok [] := by
  have h : PiecewiseLinearSpectrum.Read (some ([] : List ℚ)) =
      ReadResult.oob := by
    rw [PiecewiseLinearSpectrum.Read, if_neg (by norm_num)]
    rw [show plsReadLoop [] none = Except.ok [] from rfl]
    show (match PiecewiseLinearSpectrum.ctor
        (List.map Prod.fst ([] : List (ℚ × ℚ)))
        (List.map Prod.snd ([] : List (ℚ × ℚ))) with
      | CtorResult.ok => ReadResult.ok ([] : List (ℚ × ℚ))
      | CtorResult.fatal => ReadResult.fatal
      | CtorResult.oob => ReadResult.oob) = ReadResult.oob
    rw [show List.map Prod.fst ([] : List (ℚ × ℚ)) = [] from rfl,
      show List.map Prod.snd ([] : List (ℚ × ℚ)) = [] from rfl,
      plsCtor_nil_oob]
  exact ⟨h, by rw [h]; decide⟩

/-- C1 (amended): `PiecewiseLinearSpectrum::Read` returns the empty
optional with a warning when the file cannot be read, when it holds an odd
number of values, or when some wavelength is not strictly greater than the
previous one; for every well-formed non-empty file (even count, strictly
increasing wavelengths, at least one pair) it returns a spectrum holding
exactly those `(lambda, value)` pairs.  (For the empty zero-value file the
constructor call instead indexes out of bounds, per the counterexample.) -/
theorem piecewiseLinearSpectrum_read_diagnostics :
    (PiecewiseLinearSpectrum.Read none =
      ReadResult.warn "unable to read spectrum file") ∧
    (∀ vals : List ℚ, vals.length % 2 ≠ 0 →
      ∃ msg, PiecewiseLinearSpectrum.Read (some vals) =
        ReadResult.warn msg) ∧
    (∀ ps : List (ℚ × ℚ), ps ≠ [] →
      List.Chain' (· < ·) (ps.map Prod.fst) →
      PiecewiseLinearSpectrum.Read (some (interleave ps)) =
        ReadResult.ok ps) ∧
    (∀ ps : List (ℚ × ℚ), ¬ List.Chain' (· < ·) (ps.map Prod.fst) →
      ∃ msg, PiecewiseLinearSpectrum.Read (some (interleave ps)) =
        ReadResult.warn msg) := by
  have heven : ∀ ps : List (ℚ × ℚ),
      ¬ (interleave ps).length % 2 ≠ 0 := by
    intro ps
    rw [interleave_length]
    omega
  refine ⟨rfl, ?_, ?_, ?_⟩
  · intro vals hodd
    exact ⟨_, by rw [PiecewiseLinearSpectrum.Read, if_pos hodd]⟩
  · intro ps hne hchain
    have hloop := plsReadLoop_ok ps none (by simpa using hchain)
    have hctor : PiecewiseLinearSpectrum.ctor (ps.map Prod.fst)
        (ps.map Prod.snd) = CtorResult.ok := by
      apply plsCtor_ok
      · simpa using hne
      · simp
      · exact hchain
    rw [PiecewiseLinearSpectrum.Read, if_neg (heven ps), hloop]
    show (match PiecewiseLinearSpectrum.ctor (List.map Prod.fst ps)
        (List.map Prod.snd ps) with
      | CtorResult.ok => ReadResult.ok ps
      | CtorResult.fatal => ReadResult.fatal
      | CtorResult.oob => ReadResult.oob) = ReadResult.ok ps
    rw [hctor]
  · intro ps hchain
    obtain ⟨msg, hm⟩ := plsReadLoop_err ps none (by simpa using hchain)
    refine ⟨msg, ?_⟩
    rw [PiecewiseLinearSpectrum.Read, if_neg (heven ps), hm]

/-- C1 witness: the odd file `[1, 10, 2]` is rejected; the well-formed
non-empty file `[1, 10, 2, 20]` yields exactly the pairs
`(1, 10), (2, 20)`; the non-increasing file `[1, 10, 1, 20]` is
rejected. -/
theorem piecewiseLinearSpectrum_read_diagnostics_witness :
    (∃ msg, PiecewiseLinearSpectrum.Read (some [1, 10, 2]) =
      ReadResult.warn msg) ∧
    PiecewiseLinearSpectrum.Read (some (interleave [(1, 10), (2, 20)])) =
      ReadResult.ok [(1, 10), (2, 20)] ∧
    (∃ msg, PiecewiseLinearSpectrum.Read
      (some (interleave [(1, 10), (1, 20)])) = ReadResult.warn msg) :=
  ⟨piecewiseLinearSpectrum_read_diagnostics.2.1 [1, 10, 2] (by norm_num),
    piecewiseLinearSpectrum_read_diagnostics.2.2.1 [(1, 10), (2, 20)]
      (by simp) (by norm_num),
    piecewiseLinearSpectrum_read_diagnostics.2.2.2 [(1, 10), (1, 20)]
      (by norm_num)⟩

/-- C5: for every non-empty `PiecewiseLinearSpectrum` (equal-length arrays,
strictly increasing wavelengths), evaluation at or below the first sample
wavelength returns the first sample value, evaluation at or above the last
sample wavelength returns the last sample value, and evaluation strictly
between two adjacent sample wavelengths returns the linear interpolation of
their two values. -/
theorem piecewiseLinear_eval_clamp_interp (lambda v : List ℚ)
    (hne : lambda ≠ []) (hlen : lambda.length = v.length)
    (hinc : List.Chain' (· < ·) lambda) (l : ℚ) :
    (l ≤ lambda.headD 0 →
      PiecewiseLinearSpectrum.eval lambda v l = v.headD 0) ∧
    (lambda.getLastD 0 ≤ l →
      PiecewiseLinearSpectrum.eval lambda v l = v.getLastD 0) ∧
    (∀ (i : ℕ) (hi : i + 1 < lambda.length),
      lambda.get ⟨i, by omega⟩ < l → l < lambda.get ⟨i + 1, hi⟩ →
      PiecewiseLinearSpectrum.eval lambda v l =
        Lerp ((l - lambda.get ⟨i, by omega⟩) /
            (lambda.get ⟨i + 1, hi⟩ - lambda.get ⟨i, by omega⟩))
          (v.get ⟨i, by omega⟩) (v.get ⟨i + 1, by omega⟩)) := by
  have hemp : lambda.isEmpty = false := by
    cases lambda with
    | nil => exact absurd rfl hne
    | cons a rest => rfl
  have hpw : List.Pairwise (· < ·) lambda := List.chain'_iff_pairwise.mp hinc
  have hlpos : 0 < lambda.length := List.length_pos.mpr hne
  have hhead : lambda.headD 0 = lambda.get ⟨0, hlpos⟩ := by
    cases lambda with
    | nil => exact absurd rfl hne
    | cons a rest => rfl
  have hlast : lambda.getLastD 0 =
      lambda.get ⟨lambda.length - 1, by omega⟩ := by
    rw [List.getLastD_eq_getLast?, List.getLast?_eq_getLast lambda hne,
      Option.getD_some, List.getLast_eq_get]
  refine ⟨?_, ?_, ?_⟩
  · intro hle
    rw [PiecewiseLinearSpectrum.eval]
    simp only [hemp, Bool.false_eq_true, if_false, if_pos hle]
  · intro hge
    by_cases hle : l ≤ lambda.headD 0
    · have h1 : lambda.length = 1 := by
        by_contra hlen2
        have hl2 : 2 ≤ lambda.length := by omega
        have hlt : lambda.get ⟨0, hlpos⟩ <
            lambda.get ⟨lambda.length - 1, by omega⟩ :=
          List.pairwise_iff_get.mp hpw ⟨0, hlpos⟩
            ⟨lambda.length - 1, by omega⟩ (by
              simp only [Fin.mk_lt_mk]
              omega)
        rw [hhead] at hle
        rw [hlast] at hge
        linarith
      obtain ⟨a, ha⟩ := List.length_eq_one.mp h1
      have hv1 : v.length = 1 := by omega
      obtain ⟨x, hx⟩ := List.length_eq_one.mp hv1
      subst ha
      subst hx
      rw [PiecewiseLinearSpectrum.eval]
      simp only [List.isEmpty_cons, Bool.false_eq_true, if_false,
        if_pos hle]
      rfl
    · rw [PiecewiseLinearSpectrum.eval]
      simp only [hemp, Bool.false_eq_true, if_false, if_neg hle,
        if_pos hge]
  · intro i hi hlo hhi
    have hle : ¬ l ≤ lambda.headD 0 := by
      rw [hhead]
      have h0i := pairwise_get_le lambda hpw 0 i (by omega) (by omega)
      exact not_le.mpr (lt_of_le_of_lt h0i hlo)
    have hge : ¬ lambda.getLastD 0 ≤ l := by
      rw [hlast]
      have hil := pairwise_get_le lambda hpw (i + 1) (lambda.length - 1)
        (by omega) (by omega)
      exact not_le.mpr (lt_of_lt_of_le hhi hil)
    rw [PiecewiseLinearSpectrum.eval]
    simp only [hemp, Bool.false_eq_true, if_false, if_neg hle, if_neg hge]
    have hoff : FindInterval lambda l = i :=
      findInterval_bracket lambda l i hi hpw (le_of_lt hlo) hhi
    have e1 : lambda.getD i 0 = lambda.get ⟨i, by omega⟩ :=
      List.getD_eq_getElem lambda 0 (by omega)
    have e2 : lambda.getD (i + 1) 0 = lambda.get ⟨i + 1, hi⟩ :=
      List.getD_eq_getElem lambda 0 hi
    have e3 : v.getD i 0 = v.get ⟨i, by omega⟩ :=
      List.getD_eq_getElem v 0 (by omega)
    have e4 : v.getD (i + 1) 0 = v.get ⟨i + 1, by omega⟩ :=
      List.getD_eq_getElem v 0 (by omega)
    rw [hoff, e1, e2, e3, e4]

/-- C5 witness: on the spectrum with wavelengths `[1, 2, 3]` and values
`[10, 20, 30]`, evaluation at 0 clamps to 10, at 7 clamps to 30, and at
3/2 interpolates to 15. -/
theorem piecewiseLinear_eval_clamp_interp_witness :
    PiecewiseLinearSpectrum.eval [1, 2, 3] [10, 20, 30] 0 = 10 ∧
    PiecewiseLinearSpectrum.eval [1, 2, 3] [10, 20, 30] 7 = 30 ∧
    PiecewiseLinearSpectrum.eval [1, 2, 3] [10, 20, 30] (3 / 2) = 15 := by
  have h := piecewiseLinear_eval_clamp_interp [1, 2, 3] [10, 20, 30]
    (by simp) (by simp)
    (by refine List.chain'_cons.mpr ⟨by norm_num, List.chain'_cons.mpr
      ⟨by norm_num, List.chain'_singleton 3⟩⟩)
  refine ⟨?_, ?_, ?_⟩
  · exact (h 0).1 (by norm_num)
  · exact (h 7).2.1 (by norm_num)
  · have h32 := (h (3 / 2)).2.2 0 (by norm_num) (by norm_num) (by norm_num)
    rw [h32, Lerp]
    norm_num

end pbrt
